import Mathlib

/-!
Verification of the usa-gov-scraper directory-extraction pipeline.

Python strings are modelled as `List Char` (`PyStr`); SQLite tables as Lean
lists of row structures, appended in insertion order; fallible network fetches
as `Option`-valued oracles.  Every definition is translated from the repository
source named in its doc comment.
-/

set_option maxRecDepth 4000

/-- Model of a Python `str`: a list of characters (ASCII scope). -/
abbrev PyStr := List Char

/-- Convert a Lean string literal to the `PyStr` model. -/
def pstr (s : String) : PyStr := s.data

/-- Characters stripped by Python `str.strip()` (ASCII whitespace). -/
def isPySpace (c : Char) : Bool :=
  c = ' ' || c = '\t' || c = '\n' || c = '\r' || c = '\x0b' || c = '\x0c'

/-- Model of Python `str.lstrip()`. -/
def pyLstrip (s : PyStr) : PyStr := s.dropWhile isPySpace

/-- Model of Python `str.rstrip()`. -/
def pyRstrip (s : PyStr) : PyStr := (s.reverse.dropWhile isPySpace).reverse

/-- Model of Python `str.strip()`. -/
def pyStrip (s : PyStr) : PyStr := pyRstrip (pyLstrip s)

/-- Model of Python `str.lower()` (ASCII scope). -/
def pyLower (s : PyStr) : PyStr := s.map Char.toLower

/-- Model of Python `str.upper()` (ASCII scope). -/
def pyUpper (s : PyStr) : PyStr := s.map Char.toUpper

/-- Model of Python `str.startswith(p)`. -/
def pyStartsWith : PyStr → PyStr → Bool
  | [], _ => true
  | _ :: _, [] => false
  | p :: ps, c :: cs => p = c && pyStartsWith ps cs

/-- Model of Python `str.endswith(p)`. -/
def pyEndsWith (p s : PyStr) : Bool := pyStartsWith p.reverse s.reverse

/-- The part of a string before the first occurrence of `c`
(Python `s.split(c)[0]`, also `s.split(c, 1)[0]`). -/
def pyTakeUntil (c : Char) (s : PyStr) : PyStr := s.takeWhile (· ≠ c)

/-- The part of a string after the first occurrence of `c`
(Python `s.split(c, 1)[1]`, meaningful when `c ∈ s`). -/
def pyAfter (c : Char) (s : PyStr) : PyStr := (s.dropWhile (· ≠ c)).tail

/-- Model of Python `str.split(c)` for a one-character separator:
always returns a non-empty list of separator-free pieces. -/
def pySplit (c : Char) : PyStr → List PyStr
  | [] => [[]]
  | x :: xs =>
    match pySplit c xs with
    | [] => [[]]
    | y :: ys => if x = c then [] :: y :: ys else (x :: y) :: ys

/-- Model of Python `c.join(xs)` for a one-character separator. -/
def pyJoin (c : Char) : List PyStr → PyStr
  | [] => []
  | [x] => x
  | x :: y :: ys => x ++ c :: pyJoin c (y :: ys)

/-! ## Persistence model

`scripts/crawl_contacts_from_db.py` works against the SQLite tables
`departments` and `contacts`.  A table is modelled as a list of rows in
insertion order; `SELECT ... WHERE` scans in that order (SQLite returns the
first matching row for `fetchone()`); `lastrowid` is modelled as
`length + 1` (rowids are assigned consecutively from 1 in insertion order). -/

/-- One row of the `departments` table (the columns touched by
`upsert_department_for_site` in `scripts/crawl_contacts_from_db.py`). -/
structure DeptRow where
  department_id : Nat
  jurisdiction_id : Nat
  name : PyStr
  category : PyStr
  description : PyStr
  website_url : PyStr
deriving DecidableEq, Repr

/-- One row of the `contacts` table (the columns written by
`insert_contacts` in `scripts/crawl_contacts_from_db.py`). -/
structure ContactRow where
  department_id : Nat
  contact_type : PyStr
  name : PyStr
  title : PyStr
  email : PyStr
  phone : PyStr
  validation_status : PyStr
deriving DecidableEq, Repr

/-- The `SELECT department_id FROM departments WHERE jurisdiction_id=? AND name=?`
query of `upsert_department_for_site`: first matching row's id, if any. -/
def selectDeptId (db : List DeptRow) (jid : Nat) (name : PyStr) : Option Nat :=
  (db.find? (fun r => r.jurisdiction_id = jid ∧ r.name = name)).map (·.department_id)

/-- Model of `upsert_department_for_site(conn, jurisdiction_id, site_domain)`
(`scripts/crawl_contacts_from_db.py` lines 70–86): return the existing row's
id if a row with this `(jurisdiction_id, name)` exists, otherwise insert a new
`('government_site', '', 'https://<domain>')` row and return its rowid.
Returns the id together with the updated table. -/
def upsert_department_for_site (db : List DeptRow) (jid : Nat) (site_domain : PyStr) :
    Nat × List DeptRow :=
  match selectDeptId db jid site_domain with
  | some i => (i, db)
  | none =>
    let newId := db.length + 1
    (newId, db ++ [⟨newId, jid, site_domain, pstr "government_site", [],
                    pstr "https://" ++ site_domain⟩])

/-- Model of `insert_contacts(conn, department_id, emails, phones)`
(`scripts/crawl_contacts_from_db.py` lines 89–112): unconditionally insert one
`'general'`/`'pending'` contact row per email and then one per phone, and
return the number inserted together with the updated table. -/
def insert_contacts (db : List ContactRow) (dept : Nat)
    (emails phones : List PyStr) : Nat × List ContactRow :=
  let emailRows := emails.map (fun e =>
    (⟨dept, pstr "general", [], [], e, [], pstr "pending"⟩ : ContactRow))
  let phoneRows := phones.map (fun p =>
    (⟨dept, pstr "general", [], [], [], p, pstr "pending"⟩ : ContactRow))
  (emails.length + phones.length, db ++ emailRows ++ phoneRows)

/-! ## Claims C1 and C2 -/

/-- C1: the department upsert is idempotent on its natural key — after one
call, a second call with the same `(jurisdiction_id, name)` returns the same
id and leaves the `departments` table unchanged (same rows, same row count). -/
theorem upsert_department_idempotent (db : List DeptRow) (jid : Nat) (dom : PyStr) :
    (upsert_department_for_site (upsert_department_for_site db jid dom).2 jid dom) =
      ((upsert_department_for_site db jid dom).1,
       (upsert_department_for_site db jid dom).2) := by
  unfold upsert_department_for_site
  cases h : selectDeptId db jid dom with
  | some i =>
    simp only [h]
  | none =>
    simp only [h]
    have hsel : selectDeptId
        (db ++ [⟨db.length + 1, jid, dom, pstr "government_site", [],
                 pstr "https://" ++ dom⟩]) jid dom = some (db.length + 1) := by
      unfold selectDeptId at h ⊢
      rw [List.find?_append]
      cases hf : db.find? (fun r => decide (r.jurisdiction_id = jid ∧ r.name = dom)) with
      | some r => rw [hf] at h; simp at h
      | none => simp [List.find?]
    simp only [hsel]

/-- C2 counterexample: inserting an email that already exists as a contact row
of the same department creates a second row with the same
`(department_id, email)` — the contacts table ends with two such rows. -/
theorem insert_contacts_duplicates_counterexample :
    ((insert_contacts
        [⟨1, pstr "general", [], [], pstr "info@example.gov", [], pstr "pending"⟩]
        1 [pstr "info@example.gov"] []).2.filter
      (fun r => r.department_id = 1 ∧ r.email = pstr "info@example.gov")).length = 2 := by
  decide

/-- C2 amended: `insert_contacts` appends rows unconditionally — it never
checks the existing table, a single call appends exactly one row per given
email and per given phone (in that order), and calling it twice with the same
inputs therefore appends the rows twice. -/
theorem insert_contacts_appends_unconditionally (db : List ContactRow) (dept : Nat)
    (emails phones : List PyStr) :
    (insert_contacts db dept emails phones).2 =
      db ++ emails.map (fun e =>
        (⟨dept, pstr "general", [], [], e, [], pstr "pending"⟩ : ContactRow))
         ++ phones.map (fun p =>
        (⟨dept, pstr "general", [], [], [], p, pstr "pending"⟩ : ContactRow)) ∧
    (insert_contacts db dept emails phones).1 = emails.length + phones.length ∧
    ((insert_contacts (insert_contacts db dept emails phones).2 dept
        emails phones).2).length =
      db.length + 2 * (emails.length + phones.length) := by
  refine ⟨rfl, rfl, ?_⟩
  simp [insert_contacts]
  ring

/-! ## HTML Entity Extractor

`scraper/core.py`, `GovernmentAgencyScraper.parse_agency_section`.  The parsed
page is modelled as the document-order sequence of the nodes the code
inspects: `<h2>` elements (carrying their visible text, `h2.text`) and `<a>`
elements that have an `href` attribute (carrying that attribute's value).
`h2.find_next('a', href=True)` is the first anchor occurring after the
heading in document order. -/

/-- A node of the parsed listing page, in document order. -/
inductive Node where
  | h2 (text : PyStr)
  | anchor (href : PyStr)
deriving DecidableEq, Repr

/-- One extracted agency record, as built by `parse_agency_section`.
`sect` models the record's `'section'` key (`section` is reserved in Lean). -/
structure Agency where
  agency_name : PyStr
  homepage_url : PyStr
  parent_department : Option PyStr
  sect : PyStr
deriving DecidableEq, Repr

/-- Characters CPython accepts inside a URL scheme. -/
def isSchemeChar (c : Char) : Bool := c.isAlphanum || c = '+' || c = '-' || c = '.'

/-- Whether a string begins with a valid `scheme:` part, per CPython's
`urllib.parse` (first colon preceded by a non-empty run of scheme characters
starting with an ASCII letter). -/
def hasUrlScheme (s : PyStr) : Bool :=
  let pre := pyTakeUntil ':' s
  s.contains ':' && !pre.isEmpty &&
    (match pre with | c :: _ => c.isAlpha | [] => false) && pre.all isSchemeChar

/-- Model of `urljoin("https://www.usa.gov/agency-index", href)` as used in
`parse_agency_section` (the caller only passes hrefs not already starting
with `http://`/`https://`).  An href with its own scheme (e.g. `mailto:`,
`ftp:`) is returned unchanged; a `//`-href takes the base scheme; a
`/`-rooted href takes the base origin; other relative hrefs resolve against
the base directory `/`.  Approximated (fragment/query-only refs and `..`
segments are kept verbatim rather than resolved; every such output starts
with `https://www.usa.gov`, exactly like CPython's, which is the only
property the caller inspects). -/
def urljoin_agency_index (href : PyStr) : PyStr :=
  if href = [] then pstr "https://www.usa.gov/agency-index"
  else if hasUrlScheme href then href
  else if pyStartsWith (pstr "//") href then pstr "https:" ++ href
  else if pyStartsWith (pstr "/") href then pstr "https://www.usa.gov" ++ href
  else pstr "https://www.usa.gov/" ++ href

/-- The first `href` of an anchor occurring in the given node sequence
(`h2.find_next('a', href=True)` applied to the nodes after the heading). -/
def findNextHref : List Node → Option PyStr
  | [] => none
  | Node.h2 _ :: rest => findNextHref rest
  | Node.anchor h :: _ => some h

/-- The records contributed by one `<h2>` with text `t`, given the nodes
after it — the body of the `for h2 in h2_elements` loop of
`parse_agency_section` (`scraper/core.py` lines 57–90): skip single
uppercase letters and headings outside the section; pair with the next
anchor; make the URL absolute; skip internal `https://www.usa.gov` links. -/
def emitAgency (sectionId t : PyStr) (rest : List Node) : List Agency :=
  let name := pyStrip t
  if name.length = 1 && name.all Char.isAlpha && name.all Char.isUpper then []
  else if !(pyStartsWith (pyUpper sectionId) (pyUpper name)) then []
  else
    match findNextHref rest with
    | none => []
    | some href =>
      if href = [] then []
      else
        let url :=
          if pyStartsWith (pstr "http://") href || pyStartsWith (pstr "https://") href
          then href else urljoin_agency_index href
        if pyStartsWith (pstr "https://www.usa.gov") url then []
        else [⟨name, url, none, sectionId⟩]

/-- Model of `GovernmentAgencyScraper.parse_agency_section(soup, section_id)`:
iterate over all `<h2>` elements in document order, each paired with the
first following anchor. -/
def parse_agency_section : List Node → PyStr → List Agency
  | [], _ => []
  | Node.h2 t :: rest, sec => emitAgency sec t rest ++ parse_agency_section rest sec
  | Node.anchor _ :: rest, sec => parse_agency_section rest sec

/-- A non-empty list stays non-empty under right-append. -/
theorem append_ne_nil_left {x y : PyStr} (hx : x ≠ []) : x ++ y ≠ [] := by
  cases x with
  | nil => exact absurd rfl hx
  | cons a l => simp

/-- Joining against the agency-index base never yields an empty URL when the
href is non-empty. -/
theorem urljoin_agency_index_ne_nil (href : PyStr) (h : href ≠ []) :
    urljoin_agency_index href ≠ [] := by
  unfold urljoin_agency_index
  split
  · decide
  split
  · exact h
  split
  · exact append_ne_nil_left (by decide)
  split
  · exact append_ne_nil_left (by decide)
  · exact append_ne_nil_left (by decide)

/-- Any record contributed by one heading carries the stripped heading text
and the requested section id, has a non-empty URL that does not start with
`https://www.usa.gov`, and its heading was not a single uppercase letter. -/
theorem mem_emitAgency {sec t : PyStr} {rest : List Node} {a : Agency}
    (ha : a ∈ emitAgency sec t rest) :
    a.agency_name = pyStrip t ∧ a.sect = sec ∧ a.homepage_url ≠ [] ∧
    pyStartsWith (pstr "https://www.usa.gov") a.homepage_url = false ∧
    ((pyStrip t).length = 1 && (pyStrip t).all Char.isAlpha
      && (pyStrip t).all Char.isUpper) = false := by
  simp only [emitAgency] at ha
  split at ha
  · exact absurd ha (List.not_mem_nil a)
  next h1 =>
  split at ha
  · exact absurd ha (List.not_mem_nil a)
  next h2 =>
  split at ha
  · exact absurd ha (List.not_mem_nil a)
  next href hfind =>
  split at ha
  · exact absurd ha (List.not_mem_nil a)
  next h4 =>
  split at ha
  · split at ha
    · exact absurd ha (List.not_mem_nil a)
    next h5 =>
      have hrec := List.mem_singleton.mp ha
      subst hrec
      exact ⟨rfl, rfl, h4, by simpa using h5, by simpa using h1⟩
  · split at ha
    · exact absurd ha (List.not_mem_nil a)
    next h5 =>
      have hrec := List.mem_singleton.mp ha
      subst hrec
      exact ⟨rfl, rfl, urljoin_agency_index_ne_nil href h4, by simpa using h5,
        by simpa using h1⟩

/-- Whether a page node is a heading (used to describe link-free documents). -/
def isH2 : Node → Bool
  | Node.h2 _ => true
  | Node.anchor _ => false

/-- A document consisting only of headings has no next anchor anywhere. -/
theorem findNextHref_of_all_h2 (doc : List Node) (h : doc.all isH2 = true) :
    findNextHref doc = none := by
  induction doc with
  | nil => rfl
  | cons n rest ih =>
    cases n with
    | h2 t =>
      simp only [List.all_cons, Bool.and_eq_true] at h
      exact ih h.2
    | anchor s => simp [isH2] at h

/-- A heading with no following anchor contributes no record at all. -/
theorem emitAgency_of_no_anchor {sec t : PyStr} {rest : List Node}
    (h : findNextHref rest = none) : emitAgency sec t rest = [] := by
  simp [emitAgency, h]

/-- C7 counterexample: a candidate heading (`"Agriculture Department"`,
matching the requested section) with no resolvable URL is silently omitted —
the output is empty, with no record marking the URL unresolved, contradicting
the claim that such a candidate is still present in the output sequence. -/
theorem linkless_heading_dropped_counterexample :
    parse_agency_section [Node.h2 (pstr "Agriculture Department")] (pstr "A") = [] := by
  decide

/-- C7 amended: `parse_agency_section` silently drops candidates without a
resolvable URL — a document whose nodes are all headings (so no heading has a
following link) yields an empty output sequence, with no unresolved-URL
records emitted. -/
theorem headings_without_links_dropped (doc : List Node) (sec : PyStr)
    (h : doc.all isH2 = true) : parse_agency_section doc sec = [] := by
  induction doc with
  | nil => rfl
  | cons n rest ih =>
    cases n with
    | h2 t =>
      simp only [List.all_cons, Bool.and_eq_true] at h
      rw [parse_agency_section, ih h.2,
          emitAgency_of_no_anchor (findNextHref_of_all_h2 rest h.2)]
      rfl
    | anchor s => simp [isH2] at h

/-- C7 witness: the amended theorem applied to a concrete two-heading
document. -/
theorem headings_without_links_dropped_witness :
    ([Node.h2 (pstr "Agriculture Department"), Node.h2 (pstr "B")].all isH2 = true) ∧
    parse_agency_section [Node.h2 (pstr "Agriculture Department"),
        Node.h2 (pstr "B")] (pstr "A") = [] :=
  ⟨by decide, headings_without_links_dropped
    [Node.h2 (pstr "Agriculture Department"), Node.h2 (pstr "B")] (pstr "A")
    (by decide)⟩

/-- C8 counterexample: a heading whose visible text is the single alphabetic
character `"a"` (lowercase) is emitted as an entity name when a cross-host
link follows — the skip guard tests `isupper()`, so only uppercase
single-letter headings are treated as section markers. -/
theorem single_letter_lowercase_emitted_counterexample :
    (parse_agency_section [Node.h2 (pstr "a"),
        Node.anchor (pstr "https://alpha.example.gov")] (pstr "A")).map
      Agency.agency_name = [[('a' : Char)]] := by
  decide

/-- C8 amended: a heading whose stripped visible text is a single
**uppercase** alphabetic character never appears as an emitted entity name,
regardless of surrounding links. -/
theorem single_letter_heading_never_entity (doc : List Node) (sec : PyStr)
    (c : Char) (a : Agency) (hA : c.isAlpha = true) (hU : c.isUpper = true)
    (ha : a ∈ parse_agency_section doc sec) : a.agency_name ≠ [c] := by
  induction doc with
  | nil => exact absurd ha (List.not_mem_nil a)
  | cons n rest ih =>
    cases n with
    | h2 t =>
      rw [parse_agency_section] at ha
      rcases List.mem_append.mp ha with hm | hm
      · obtain ⟨hname, -, -, -, hguard⟩ := mem_emitAgency hm
        intro hc
        rw [hname] at hc
        rw [hc] at hguard
        simp [hA, hU] at hguard
      · exact ih hm
    | anchor s =>
      rw [parse_agency_section] at ha
      exact ih ha

/-- C8 witness: the amended theorem applied to a concrete document containing
an uppercase `"A"` section marker: the emitted record's name is not `"A"`. -/
theorem single_letter_heading_never_entity_witness :
    Char.isAlpha 'A' = true ∧ Char.isUpper 'A' = true ∧
    ((⟨pstr "Agriculture Department", pstr "https://www.usda.gov", none,
        pstr "A"⟩ : Agency) ∈ parse_agency_section
          [Node.h2 (pstr "A"), Node.h2 (pstr "Agriculture Department"),
           Node.anchor (pstr "https://www.usda.gov")] (pstr "A")) ∧
    (⟨pstr "Agriculture Department", pstr "https://www.usda.gov", none,
        pstr "A"⟩ : Agency).agency_name ≠ ['A'] :=
  ⟨by decide, by decide, by decide,
    single_letter_heading_never_entity
      [Node.h2 (pstr "A"), Node.h2 (pstr "Agriculture Department"),
       Node.anchor (pstr "https://www.usda.gov")] (pstr "A") 'A'
      ⟨pstr "Agriculture Department", pstr "https://www.usda.gov", none, pstr "A"⟩
      (by decide) (by decide) (by decide)⟩

/-- C10 counterexample: an href with its own non-http scheme (`mailto:`) is
emitted verbatim as an entity's `homepage_url`, which therefore is not
absolute in the `http://`/`https://` sense claimed. -/
theorem mailto_href_emitted_counterexample :
    (parse_agency_section [Node.h2 (pstr "Mail Agency"),
        Node.anchor (pstr "mailto:info@example.gov")] (pstr "M")).map
      Agency.homepage_url = [pstr "mailto:info@example.gov"] ∧
    pyStartsWith (pstr "http://") (pstr "mailto:info@example.gov") = false ∧
    pyStartsWith (pstr "https://") (pstr "mailto:info@example.gov") = false := by
  constructor
  · decide
  constructor <;> decide

/-- C10 amended: every record emitted by `parse_agency_section` has `section`
equal to the requested section id and a non-empty `homepage_url` that does not
start with `https://www.usa.gov` (internal aggregator links never appear);
the URL is not guaranteed to start with `http://`/`https://`, since an href
carrying another scheme is emitted unchanged. -/
theorem parse_section_invariant (doc : List Node) (sec : PyStr) (a : Agency)
    (ha : a ∈ parse_agency_section doc sec) :
    a.sect = sec ∧ a.homepage_url ≠ [] ∧
    pyStartsWith (pstr "https://www.usa.gov") a.homepage_url = false := by
  induction doc with
  | nil => exact absurd ha (List.not_mem_nil a)
  | cons n rest ih =>
    cases n with
    | h2 t =>
      rw [parse_agency_section] at ha
      rcases List.mem_append.mp ha with hm | hm
      · obtain ⟨-, hs, hu, husa, -⟩ := mem_emitAgency hm
        exact ⟨hs, hu, husa⟩
      · exact ih hm
    | anchor s =>
      rw [parse_agency_section] at ha
      exact ih ha

/-- C10 witness: the amended invariant evaluated on a concrete emitted
record. -/
theorem parse_section_invariant_witness :
    ((⟨pstr "Agriculture Department", pstr "https://www.usda.gov", none,
        pstr "A"⟩ : Agency) ∈ parse_agency_section
          [Node.h2 (pstr "Agriculture Department"),
           Node.anchor (pstr "https://www.usda.gov")] (pstr "A")) ∧
    ((⟨pstr "Agriculture Department", pstr "https://www.usda.gov", none,
        pstr "A"⟩ : Agency).sect = pstr "A" ∧
     (⟨pstr "Agriculture Department", pstr "https://www.usda.gov", none,
        pstr "A"⟩ : Agency).homepage_url ≠ [] ∧
     pyStartsWith (pstr "https://www.usa.gov")
       (⟨pstr "Agriculture Department", pstr "https://www.usda.gov", none,
        pstr "A"⟩ : Agency).homepage_url = false) :=
  ⟨by decide, parse_section_invariant
      [Node.h2 (pstr "Agriculture Department"),
       Node.anchor (pstr "https://www.usda.gov")] (pstr "A")
      ⟨pstr "Agriculture Department", pstr "https://www.usda.gov", none, pstr "A"⟩
      (by decide)⟩

/-! ## Scheduled crawler

`scripts/schedule_crawl.py`, the per-site body of the batch loop in `main`
(lines 49–69).  Network fetches are modelled by an oracle
`fetch : PyStr → Option PyStr` (`None` = request failed or non-200, as in
`fetch()` of `scripts/crawl_contacts_from_db.py`); the page-content-dependent
contact extraction (`extract_contacts_from_page` on the homepage plus up to
three `detect_contact_links` sub-fetches, then `sorted(set(...))`) is
abstracted as an oracle `gatherContacts` from the fetched homepage HTML to
the final email and phone lists handed to `insert_contacts`; `now` models
`datetime.utcnow().isoformat()`. -/

/-- One row of the `websites` table as selected by the scheduler's query. -/
structure WebsiteRow where
  website_id : Nat
  jurisdiction_id : Nat
  domain : PyStr
  full_url : PyStr
  last_scraped : Option PyStr
deriving DecidableEq, Repr

/-- The tables the scheduled crawler touches. -/
structure CrawlState where
  websites : List WebsiteRow
  departments : List DeptRow
  contacts : List ContactRow
deriving DecidableEq, Repr

/-- The loop's base URL for a site row: `row['full_url'] or f"https://{domain}"`. -/
def siteBaseUrl (row : WebsiteRow) : PyStr :=
  if row.full_url ≠ [] then row.full_url else pstr "https://" ++ row.domain

/-- Model of one iteration of the `for row in rows` loop in
`scripts/schedule_crawl.py` `main`: build the base URL, fetch it, and on
failure `continue` to the next site; on success insert the gathered contacts
under the per-site department and set the row's `last_scraped`
(`UPDATE websites SET last_scraped = ? WHERE website_id = ?`). -/
def processSite (fetch : PyStr → Option PyStr)
    (gatherContacts : PyStr → List PyStr × List PyStr)
    (now : PyStr) (st : CrawlState) (row : WebsiteRow) : CrawlState :=
  match fetch (siteBaseUrl row) with
  | none => st
  | some html =>
    let ep := gatherContacts html
    let up := upsert_department_for_site st.departments row.jurisdiction_id row.domain
    { websites := st.websites.map (fun w =>
        if w.website_id = row.website_id then { w with last_scraped := some now }
        else w),
      departments := up.2,
      contacts := (insert_contacts st.contacts up.1 ep.1 ep.2).2 }

/-- C6 counterexample: a failed fetch does not advance the schedule — with a
fetch oracle that fails, processing a never-crawled website row leaves the
entire state (in particular the row's `last_scraped`, still `NULL`)
unchanged, so the unreachable site is re-selected first on the next run. -/
theorem failed_fetch_keeps_last_scraped_counterexample :
    processSite (fun _ => none) (fun _ => ([], []))
      (pstr "2026-10-12T00:00:00")
      ⟨[⟨1, 1, pstr "example.gov", pstr "https://example.gov", none⟩], [], []⟩
      ⟨1, 1, pstr "example.gov", pstr "https://example.gov", none⟩ =
    ⟨[⟨1, 1, pstr "example.gov", pstr "https://example.gov", none⟩], [], []⟩ := by
  decide

/-- C6 amended: a crawl attempt advances `last_scraped` only when the fetch
succeeds — the processed row's timestamp is set to the current time on a
successful fetch, and on a failed fetch the `websites` table is left exactly
as it was (the row keeps its old `last_scraped`). -/
theorem processSite_last_scraped (fetch : PyStr → Option PyStr)
    (gatherContacts : PyStr → List PyStr × List PyStr)
    (now : PyStr) (st : CrawlState) (row : WebsiteRow) :
    (processSite fetch gatherContacts now st row).websites =
      if (fetch (siteBaseUrl row)).isSome
      then st.websites.map (fun w =>
        if w.website_id = row.website_id then { w with last_scraped := some now }
        else w)
      else st.websites := by
  unfold processSite
  cases h : fetch (siteBaseUrl row) with
  | none => simp [h]
  | some html => simp [h]

/-! ## Seed-URL iteration from agency CSVs

`scripts/discover_gov_sites.py`, `iter_agency_urls_from_csv` (lines 116–132).
The function globs CSV files and iterates their rows; the claim concerns the
per-row filter, so the input is modelled as the sequence of
`row.get('homepage_url')` values across all files in iteration order
(`None` when the column is missing).  The `seen` set always holds exactly
the urls yielded so far, carried as the first component. -/

/-- Model of `iter_agency_urls_from_csv`: yield each stripped `homepage_url`
that is non-empty, not (case-insensitively) `"see usa.gov"`, and not seen
before. -/
def iter_agency_urls_from_csv (rows : List (Option PyStr)) : List PyStr :=
  (rows.foldl (fun (acc : List PyStr × List PyStr) row =>
    let url := pyStrip (row.getD [])
    if url ≠ [] ∧ pyLower url ≠ pstr "see usa.gov" ∧ url ∉ acc.1
    then (acc.1 ++ [url], acc.2 ++ [url]) else acc) ([], [])).2

/-- C9 counterexample: a row whose `homepage_url` is the sentinel
`"Not found"` is yielded as a literal URL to fetch — only the
`"See USA.gov"` sentinel is filtered. -/
theorem not_found_sentinel_yielded_counterexample :
    iter_agency_urls_from_csv [some (pstr "Not found")] = [pstr "Not found"] := by
  decide

/-- Every url the iterator's fold yields satisfies the row filter (non-empty
and not case-insensitively `"see usa.gov"`), for any starting accumulator
whose yielded part already satisfies it. -/
theorem iter_fold_filter (rows : List (Option PyStr))
    (acc : List PyStr × List PyStr)
    (hacc : ∀ u ∈ acc.2, u ≠ [] ∧ pyLower u ≠ pstr "see usa.gov") :
    ∀ u ∈ (rows.foldl (fun (acc : List PyStr × List PyStr) row =>
      let url := pyStrip (row.getD [])
      if url ≠ [] ∧ pyLower url ≠ pstr "see usa.gov" ∧ url ∉ acc.1
      then (acc.1 ++ [url], acc.2 ++ [url]) else acc) acc).2,
      u ≠ [] ∧ pyLower u ≠ pstr "see usa.gov" := by
  induction rows generalizing acc with
  | nil => exact hacc
  | cons row rest ih =>
    simp only [List.foldl_cons]
    apply ih
    split
    next hc =>
      intro u hu
      rcases List.mem_append.mp hu with h | h
      · exact hacc u h
      · rw [List.mem_singleton.mp h]
        exact ⟨hc.1, hc.2.1⟩
    next => exact hacc

/-- C9 amended: the seed-URL iterator treats only the empty string and the
`"See USA.gov"` sentinel (case-insensitively) as absent — no yielded URL is
empty or a case-variant of `"see usa.gov"` — but the `"Not found"` sentinel
is NOT treated as absent and is yielded as a literal URL. -/
theorem iter_agency_urls_filter (rows : List (Option PyStr)) (u : PyStr)
    (hu : u ∈ iter_agency_urls_from_csv rows) :
    u ≠ [] ∧ pyLower u ≠ pstr "see usa.gov" := by
  exact iter_fold_filter rows ([], []) (by intro v hv; exact absurd hv (List.not_mem_nil v)) u hu

/-- C9 witness: the filter theorem evaluated on a concrete yielded URL. -/
theorem iter_agency_urls_filter_witness :
    (pstr "https://www.usda.gov" ∈
      iter_agency_urls_from_csv [some (pstr "See USA.gov"), some [],
        some (pstr "https://www.usda.gov")]) ∧
    (pstr "https://www.usda.gov" ≠ [] ∧
     pyLower (pstr "https://www.usda.gov") ≠ pstr "see usa.gov") :=
  ⟨by decide, iter_agency_urls_filter
    [some (pstr "See USA.gov"), some [], some (pstr "https://www.usda.gov")]
    (pstr "https://www.usda.gov") (by decide)⟩

/-! ## URL Normalizer

`scraper_agents/dynamic_agents.py`, `NormalizeURLsTool._normalize_url`
(lines 222–260), with the tool's default `base_url = "https://www.usa.gov"`.
The method is modelled stage by stage in source order: strip, make absolute,
drop the fragment, drop tracking query parameters, drop one trailing slash.
(The `parsed = urlparse(url)` line is dead code — `parsed` is never used.) -/

/-- The tracking query-parameter keys removed by `_normalize_url`. -/
def TRACKING_KEYS : List PyStr :=
  [pstr "utm_source", pstr "utm_medium", pstr "utm_campaign",
   pstr "utm_content", pstr "utm_term"]

/-- Model of `urljoin(self.base_url, url)` with base `https://www.usa.gov`,
reached only for urls starting with `/`: a `//` url keeps the base scheme, a
`/`-rooted url keeps scheme and host.  (`..` segments are kept verbatim
rather than resolved; both outputs agree with CPython's on dot-free paths.) -/
def urljoin_usa_gov (url : PyStr) : PyStr :=
  if pyStartsWith (pstr "//") url then pstr "https:" ++ url
  else pstr "https://www.usa.gov" ++ url

/-- The make-absolute stage: urls not starting with `http://`/`https://` are
joined against the base when `/`-rooted, else prefixed with `https://`. -/
def schemeStep (s : PyStr) : PyStr :=
  if !(pyStartsWith (pstr "http://") s || pyStartsWith (pstr "https://") s) then
    (if pyStartsWith (pstr "/") s then urljoin_usa_gov s else pstr "https://" ++ s)
  else s

/-- The fragment-removal stage: `url.split('#')[0]`. -/
def fragStep (s : PyStr) : PyStr := pyTakeUntil '#' s

/-- Whether a query parameter survives filtering: its key
(`param.split('=')[0]`) is not a tracking key. -/
def keepParam (p : PyStr) : Bool := decide (pyTakeUntil '=' p ∉ TRACKING_KEYS)

/-- The tracking-parameter-removal stage: split off the query at the first
`?`, drop tracking parameters, and re-join with `?`/`&` only when some
parameters survive. -/
def queryStep (s : PyStr) : PyStr :=
  if '?' ∈ s then
    let b := pyTakeUntil '?' s
    let clean := (pySplit '&' (pyAfter '?' s)).filter keepParam
    if clean.isEmpty then b else b ++ '?' :: pyJoin '&' clean
  else s

/-- The trailing-slash stage: drop one trailing `/` unless the url is
exactly `https://`. -/
def slashStep (s : PyStr) : PyStr :=
  if pyEndsWith (pstr "/") s = true ∧ s ≠ pstr "https://" then s.dropLast else s

/-- Model of `NormalizeURLsTool._normalize_url(url)`: the empty string is
returned as-is (`if not url`), otherwise the stages run in source order. -/
def normalize_url (url : PyStr) : PyStr :=
  if url = [] then url
  else slashStep (queryStep (fragStep (schemeStep (pyStrip url))))

/-- The split-off head never contains the separator. -/
theorem not_mem_pyTakeUntil (c : Char) (s : PyStr) : c ∉ pyTakeUntil c s := by
  intro h
  have := List.mem_takeWhile_imp h
  simp at this

/-- Splitting at a character that does not occur is the identity. -/
theorem pyTakeUntil_eq_self {c : Char} {s : PyStr} (h : c ∉ s) :
    pyTakeUntil c s = s := by
  unfold pyTakeUntil
  induction s with
  | nil => rfl
  | cons a as ih =>
    simp only [List.mem_cons, not_or] at h
    rw [List.takeWhile_cons_of_pos (by simpa using Ne.symm h.1), ih h.2]

/-- Characters of the split-off head come from the original string. -/
theorem mem_pyTakeUntil_sub {c a : Char} {s : PyStr} (h : a ∈ pyTakeUntil c s) :
    a ∈ s :=
  (List.takeWhile_sublist _).subset h

/-- Characters after the separator come from the original string. -/
theorem mem_pyAfter_sub {c a : Char} {s : PyStr} (h : a ∈ pyAfter c s) : a ∈ s :=
  (List.dropWhile_sublist _).subset ((List.tail_sublist _).subset h)

/-- Python `split` always returns at least one piece. -/
theorem pySplit_ne_nil (c : Char) (s : PyStr) : pySplit c s ≠ [] := by
  cases s with
  | nil => simp [pySplit]
  | cons x xs =>
    simp only [pySplit]
    split
    · simp
    · split <;> simp

/-- Characters of any piece of a split come from the original string. -/
theorem mem_pySplit {c : Char} {s : PyStr} {x : PyStr} (hx : x ∈ pySplit c s)
    {a : Char} (ha : a ∈ x) : a ∈ s := by
  induction s generalizing x with
  | nil =>
    simp [pySplit] at hx
    subst hx
    exact absurd ha (List.not_mem_nil a)
  | cons b bs ih =>
    simp only [pySplit] at hx
    split at hx
    · rcases List.mem_cons.mp hx with h | h
      · subst h; exact absurd ha (List.not_mem_nil a)
      · exact absurd h (List.not_mem_nil x)
    next y ys hcons =>
      split at hx
      · rcases List.mem_cons.mp hx with h | h
        · subst h; exact absurd ha (List.not_mem_nil a)
        · refine List.mem_cons_of_mem b (ih ?_ ha)
          rw [hcons]; exact h
      · rcases List.mem_cons.mp hx with h | h
        · subst h
          rcases List.mem_cons.mp ha with h2 | h2
          · rw [h2]; exact List.mem_cons_self b bs
          · refine List.mem_cons_of_mem b (ih ?_ h2)
            rw [hcons]; exact List.mem_cons_self y ys
        · refine List.mem_cons_of_mem b (ih ?_ ha)
          rw [hcons]; exact List.mem_cons_of_mem y h

/-- Characters of a join are the separator or come from some piece. -/
theorem mem_pyJoin {c : Char} {xs : List PyStr} {a : Char} (h : a ∈ pyJoin c xs) :
    a = c ∨ ∃ x ∈ xs, a ∈ x := by
  induction xs with
  | nil => exact absurd h (List.not_mem_nil a)
  | cons x rest ih =>
    cases rest with
    | nil =>
      right
      exact ⟨x, List.mem_cons_self x [], h⟩
    | cons y ys =>
      simp only [pyJoin] at h
      rcases List.mem_append.mp h with hm | hm
      · right; exact ⟨x, List.mem_cons_self _ _, hm⟩
      · rcases List.mem_cons.mp hm with hm | hm
        · left; exact hm
        · rcases ih hm with hc | ⟨z, hz, haz⟩
          · left; exact hc
          · right; exact ⟨z, List.mem_cons_of_mem x hz, haz⟩

/-- The query stage introduces no `#`. -/
theorem queryStep_no_hash {s : PyStr} (h : '#' ∉ s) : '#' ∉ queryStep s := by
  by_cases hq : '?' ∈ s
  · simp only [queryStep, if_pos hq]
    split
    · intro hm
      exact h (mem_pyTakeUntil_sub hm)
    · intro hm
      rcases List.mem_append.mp hm with hm | hm
      · exact h (mem_pyTakeUntil_sub hm)
      · rcases List.mem_cons.mp hm with hm | hm
        · exact absurd hm (by decide)
        · rcases mem_pyJoin hm with hc | ⟨x, hx, hax⟩
          · exact absurd hc (by decide)
          · exact h (mem_pyAfter_sub (mem_pySplit (List.mem_of_mem_filter hx) hax))
  · rw [queryStep, if_neg hq]
    exact h

/-- The slash stage only ever drops a character. -/
theorem mem_slashStep_sub {s : PyStr} {a : Char} (h : a ∈ slashStep s) : a ∈ s := by
  unfold slashStep at h
  split at h
  · exact (List.dropLast_sublist s).subset h
  · exact h

/-- A normalized URL never contains a fragment marker. -/
theorem normalize_url_no_hash (u : PyStr) : '#' ∉ normalize_url u := by
  rw [normalize_url]
  split
  next h => rw [h]; exact List.not_mem_nil _
  next h =>
    intro hm
    exact queryStep_no_hash (not_mem_pyTakeUntil '#' _) (mem_slashStep_sub hm)

/-- A string starting with a non-empty pattern starts with its first
character. -/
theorem pyStartsWith_cons_head {p : Char} {ps s : PyStr}
    (h : pyStartsWith (p :: ps) s = true) : ∃ rest, s = p :: rest := by
  cases s with
  | nil => exact absurd h (by simp [pyStartsWith])
  | cons a as =>
    simp only [pyStartsWith, Bool.and_eq_true, decide_eq_true_eq] at h
    exact ⟨as, by rw [h.1]⟩

/-- C3 amended: normalization is idempotent on every input whose normalized
form starts with `http://` or `https://`, contains no `?`, does not end with
`/` (unless it is exactly `https://`), and has no trailing whitespace.
Outside these conditions idempotence fails (see the counterexample: a second
pass re-strips slashes, whitespace, and newly exposed tracking keys). -/
theorem normalize_url_idem_amended (u : PyStr)
    (h1 : pyStartsWith (pstr "http://") (normalize_url u) = true ∨
          pyStartsWith (pstr "https://") (normalize_url u) = true)
    (h2 : '?' ∉ normalize_url u)
    (h3 : pyEndsWith (pstr "/") (normalize_url u) = false ∨
          normalize_url u = pstr "https://")
    (h4 : pyRstrip (normalize_url u) = normalize_url u) :
    normalize_url (normalize_url u) = normalize_url u := by
  set r := normalize_url u with hr
  obtain ⟨rest, hrest⟩ : ∃ rest, r = 'h' :: rest := by
    rcases h1 with h | h
    · exact pyStartsWith_cons_head (by rw [show pstr "http://" = 'h' :: pstr "ttp://" from by decide] at h; exact h)
    · exact pyStartsWith_cons_head (by rw [show pstr "https://" = 'h' :: pstr "ttps://" from by decide] at h; exact h)
  have hne : r ≠ [] := by rw [hrest]; simp
  have hstrip : pyStrip r = r := by
    unfold pyStrip
    have hl : pyLstrip r = r := by
      rw [hrest]
      simp [pyLstrip, List.dropWhile_cons, show isPySpace 'h' = false from by decide]
    rw [hl, h4]
  have hscheme : schemeStep r = r := by
    unfold schemeStep
    rcases h1 with h | h <;> simp [h]
  have hfrag : fragStep r = r := pyTakeUntil_eq_self (hr ▸ normalize_url_no_hash u)
  have hquery : queryStep r = r := by
    rw [queryStep, if_neg h2]
  have hslash : slashStep r = r := by
    unfold slashStep
    rcases h3 with h | h
    · rw [if_neg]
      intro hc
      rw [hc.1] at h
      cases h
    · rw [if_neg]
      intro hc
      exact hc.2 h
  rw [normalize_url, if_neg hne, hstrip, hscheme, hfrag, hquery, hslash]

/-- C3 counterexample: `normalize("http://")` is `"http:/"`, but a second
application yields `"https://http:"` — `normalize(normalize(u)) ≠
normalize(u)` at `u = "http://"`. -/
theorem normalize_url_not_idempotent_counterexample :
    normalize_url (pstr "http://") = pstr "http:/" ∧
    normalize_url (normalize_url (pstr "http://")) = pstr "https://http:" ∧
    normalize_url (normalize_url (pstr "http://")) ≠ normalize_url (pstr "http://") :=
  ⟨by decide, by decide, by decide⟩

/-- C3 witness: the amended idempotence theorem evaluated at the concrete
input `"http://x.gov/a"`. -/
theorem normalize_url_idem_amended_witness :
    (pyStartsWith (pstr "http://") (normalize_url (pstr "http://x.gov/a")) = true ∨
     pyStartsWith (pstr "https://") (normalize_url (pstr "http://x.gov/a")) = true) ∧
    '?' ∉ normalize_url (pstr "http://x.gov/a") ∧
    (pyEndsWith (pstr "/") (normalize_url (pstr "http://x.gov/a")) = false ∨
     normalize_url (pstr "http://x.gov/a") = pstr "https://") ∧
    pyRstrip (normalize_url (pstr "http://x.gov/a")) = normalize_url (pstr "http://x.gov/a") ∧
    normalize_url (normalize_url (pstr "http://x.gov/a")) = normalize_url (pstr "http://x.gov/a") :=
  ⟨Or.inl (by decide), by decide, Or.inl (by decide), by decide,
   normalize_url_idem_amended (pstr "http://x.gov/a") (Or.inl (by decide)) (by decide)
     (Or.inl (by decide)) (by decide)⟩


/-! ## Deduplicator

`scraper_agents/dynamic_agents.py`, `RemoveDuplicatesTool.run`
(lines 365–413).  A record is the projection of the Python dict onto the
three keys the tool reads (`agency_name` and `homepage_url` via
`.get(k, '')`, with a missing key modelled as `''`; `parent_department` via
`.get(k)`, `none` = missing or `None`).  The `seen_urls`/`seen_names` dicts
are association lists (each key is inserted at most once), and
`unique_records` accumulates output order. -/

/-- Model of `urlparse(url).netloc` (CPython): the authority after a valid
`scheme:` (if any) and `//`, up to the next `/`, `?` or `#`; empty when the
URL has no `//` authority. -/
def pyNetloc (url : PyStr) : PyStr :=
  let rest := if hasUrlScheme url then pyAfter ':' url else url
  if pyStartsWith (pstr "//") rest
  then (rest.drop 2).takeWhile (fun c => c ≠ '/' && c ≠ '?' && c ≠ '#')
  else []

/-- The projection of an agency record onto the fields the Deduplicator
reads. -/
structure AgencyRec where
  agency_name : PyStr
  homepage_url : PyStr
  parent_department : Option PyStr
deriving DecidableEq, Repr

/-- Python truthiness of `record.get('parent_department')`: `None` and `''`
are falsy. -/
def optTruthy : Option PyStr → Bool
  | none => false
  | some s => !s.isEmpty

/-- The tool's `name` key: `record.get('agency_name', '').strip().lower()`. -/
def keyName (r : AgencyRec) : PyStr := pyLower (pyStrip r.agency_name)

/-- The tool's `url` key: `record.get('homepage_url', '').strip().lower()`. -/
def keyUrl (r : AgencyRec) : PyStr := pyLower (pyStrip r.homepage_url)

/-- The tool's `url_domain`: `urlparse(url).netloc if url else ''`. -/
def keyDomain (r : AgencyRec) : PyStr :=
  if keyUrl r ≠ [] then pyNetloc (keyUrl r) else []

/-- The tool's composite `name_key`: `name`, a `|`, then `url_domain`. -/
def nameKey (r : AgencyRec) : PyStr := keyName r ++ '|' :: keyDomain r

/-- Dictionary lookup on an association list (keys are inserted at most
once, so first match is the binding). -/
def dictGet (m : List (PyStr × Nat)) (k : PyStr) : Option Nat :=
  (m.find? (fun e => e.1 = k)).map (·.2)

/-- The loop state of `RemoveDuplicatesTool.run`: the two seen-key dicts
(mapping key to index in `unique_records`), the output list, and the
removal counter. -/
structure DedupState where
  seen_urls : List (PyStr × Nat)
  seen_names : List (PyStr × Nat)
  unique_records : List AgencyRec
  duplicates_removed : Nat
deriving DecidableEq, Repr

/-- The in-place merge on a URL match: fill in `parent_department` when the
existing record lacks one and the incoming duplicate has one. -/
def mergeParent (ex rec : AgencyRec) : AgencyRec :=
  if optTruthy ex.parent_department = false ∧ optTruthy rec.parent_department = true
  then { ex with parent_department := rec.parent_department } else ex

/-- One iteration of the `for record in self.data` loop: URL match merges
into the existing record; name+domain match is dropped; otherwise the record
is appended and its keys registered at the new index. -/
def dedupStep (st : DedupState) (rec : AgencyRec) : DedupState :=
  if keyUrl rec ≠ [] ∧ (dictGet st.seen_urls (keyUrl rec)).isSome = true then
    let i := (dictGet st.seen_urls (keyUrl rec)).getD 0
    { st with
      unique_records := st.unique_records.set i
        (mergeParent (st.unique_records.getD i ⟨[], [], none⟩) rec),
      duplicates_removed := st.duplicates_removed + 1 }
  else if keyName rec ≠ [] ∧ keyDomain rec ≠ [] ∧
      (dictGet st.seen_names (nameKey rec)).isSome = true then
    { st with duplicates_removed := st.duplicates_removed + 1 }
  else
    { seen_urls :=
        if keyUrl rec ≠ []
        then st.seen_urls ++ [(keyUrl rec, st.unique_records.length)]
        else st.seen_urls,
      seen_names :=
        if keyName rec ≠ [] ∧ keyDomain rec ≠ []
        then st.seen_names ++ [(nameKey rec, st.unique_records.length)]
        else st.seen_names,
      unique_records := st.unique_records ++ [rec],
      duplicates_removed := st.duplicates_removed }

/-- Model of `RemoveDuplicatesTool.run`: fold the loop over the input,
starting from empty dicts and an empty output. -/
def removeDuplicates (data : List AgencyRec) : DedupState :=
  data.foldl dedupStep ⟨[], [], [], 0⟩

-- same name + same domain, different path: removed by name key

-- empty urls: both kept

/-- The step on a URL hit: merge into the indexed record, count a removal. -/
theorem dedupStep_url_hit {st : DedupState} {rec : AgencyRec}
    (h : keyUrl rec ≠ [] ∧ (dictGet st.seen_urls (keyUrl rec)).isSome = true) :
    dedupStep st rec =
      { st with
        unique_records := st.unique_records.set
          ((dictGet st.seen_urls (keyUrl rec)).getD 0)
          (mergeParent (st.unique_records.getD
            ((dictGet st.seen_urls (keyUrl rec)).getD 0) ⟨[], [], none⟩) rec),
        duplicates_removed := st.duplicates_removed + 1 } := by
  simp only [dedupStep, if_pos h]

/-- The step on a name+domain hit: drop the record, count a removal. -/
theorem dedupStep_name_hit {st : DedupState} {rec : AgencyRec}
    (h1 : ¬(keyUrl rec ≠ [] ∧ (dictGet st.seen_urls (keyUrl rec)).isSome = true))
    (h2 : keyName rec ≠ [] ∧ keyDomain rec ≠ [] ∧
      (dictGet st.seen_names (nameKey rec)).isSome = true) :
    dedupStep st rec = { st with duplicates_removed := st.duplicates_removed + 1 } := by
  simp only [dedupStep, if_neg h1, if_pos h2]

/-- The step on no hit: append the record and register its keys. -/
theorem dedupStep_miss {st : DedupState} {rec : AgencyRec}
    (h1 : ¬(keyUrl rec ≠ [] ∧ (dictGet st.seen_urls (keyUrl rec)).isSome = true))
    (h2 : ¬(keyName rec ≠ [] ∧ keyDomain rec ≠ [] ∧
      (dictGet st.seen_names (nameKey rec)).isSome = true)) :
    dedupStep st rec =
      { seen_urls :=
          if keyUrl rec ≠ []
          then st.seen_urls ++ [(keyUrl rec, st.unique_records.length)]
          else st.seen_urls,
        seen_names :=
          if keyName rec ≠ [] ∧ keyDomain rec ≠ []
          then st.seen_names ++ [(nameKey rec, st.unique_records.length)]
          else st.seen_names,
        unique_records := st.unique_records ++ [rec],
        duplicates_removed := st.duplicates_removed } := by
  simp only [dedupStep, if_neg h1, if_neg h2]

/-- C5: two records with identical (non-empty) normalized `homepage_url`,
the first with `parent_department = None` and the later duplicate with a
truthy parent, collapse to exactly one output record in first-occurrence
position carrying the duplicate's `parent_department`, with one removal
counted. -/
theorem dedup_merges_parent (r1 r2 : AgencyRec)
    (hurl : keyUrl r1 = keyUrl r2) (hne : keyUrl r1 ≠ [])
    (h1 : r1.parent_department = none)
    (h2 : optTruthy r2.parent_department = true) :
    (removeDuplicates [r1, r2]).unique_records =
      [{ r1 with parent_department := r2.parent_department }] ∧
    (removeDuplicates [r1, r2]).duplicates_removed = 1 := by
  have hne2 : keyUrl r2 ≠ [] := hurl ▸ hne
  have hm1 : ¬(keyUrl r1 ≠ [] ∧
      (dictGet ([] : List (PyStr × Nat)) (keyUrl r1)).isSome = true) := by
    simp [dictGet]
  have hm2 : ¬(keyName r1 ≠ [] ∧ keyDomain r1 ≠ [] ∧
      (dictGet ([] : List (PyStr × Nat)) (nameKey r1)).isSome = true) := by
    simp [dictGet]
  have hget : dictGet [(keyUrl r1, 0)] (keyUrl r2) = some 0 := by
    rw [← hurl]
    simp [dictGet, List.find?]
  unfold removeDuplicates
  rw [List.foldl_cons, List.foldl_cons, List.foldl_nil]
  rw [@dedupStep_miss ⟨[], [], [], 0⟩ r1 hm1 hm2]
  rw [if_pos hne]
  simp only [List.nil_append, List.length_nil]
  rw [dedupStep_url_hit ⟨hne2, by simp only [hget]; rfl⟩]
  simp only [hget]
  constructor
  · simp [List.set, List.getD, mergeParent, h1, h2,
      (show optTruthy none = false from rfl)]
  · trivial

/-- A key bound in a dict stays bound after appending more bindings. -/
theorem dictGet_append_isSome {m : List (PyStr × Nat)} (m2 : List (PyStr × Nat))
    {k : PyStr} (h : (dictGet m k).isSome = true) :
    (dictGet (m ++ m2) k).isSome = true := by
  unfold dictGet at *
  rw [List.find?_append]
  cases hf : m.find? (fun e => decide (e.1 = k)) with
  | none => rw [hf] at h; simp at h
  | some e => simp [hf]

/-- A freshly appended key is bound. -/
theorem dictGet_append_singleton_self (m : List (PyStr × Nat)) (k : PyStr) (v : Nat) :
    (dictGet (m ++ [(k, v)]) k).isSome = true := by
  unfold dictGet
  rw [List.find?_append]
  cases hf : m.find? (fun e => decide (e.1 = k)) with
  | none => simp [List.find?]
  | some e => simp [hf]

/-- Appending a different key leaves a lookup unchanged. -/
theorem dictGet_append_singleton_ne {k k' : PyStr} (m : List (PyStr × Nat)) (v : Nat)
    (h : k' ≠ k) : dictGet (m ++ [(k, v)]) k' = dictGet m k' := by
  unfold dictGet
  rw [List.find?_append]
  cases hf : m.find? (fun e => decide (e.1 = k')) with
  | none => simp [List.find?, Ne.symm h]
  | some e => simp [hf]

/-- Merging only touches `parent_department`, so the `url` key is kept. -/
theorem mergeParent_keyUrl (ex rec : AgencyRec) :
    keyUrl (mergeParent ex rec) = keyUrl ex := by
  unfold mergeParent
  split <;> rfl

/-- Merging only touches `parent_department`, so the `name` key is kept. -/
theorem mergeParent_keyName (ex rec : AgencyRec) :
    keyName (mergeParent ex rec) = keyName ex := by
  unfold mergeParent
  split <;> rfl

/-- Merging only touches `parent_department`, so the domain is kept. -/
theorem mergeParent_keyDomain (ex rec : AgencyRec) :
    keyDomain (mergeParent ex rec) = keyDomain ex := by
  unfold keyDomain
  rw [mergeParent_keyUrl]

/-- Two records collide on no dedup key: distinct non-empty urls, and
distinct name-keys when both have a non-empty name and domain. -/
def RecKeyDistinct (a b : AgencyRec) : Prop :=
  (keyUrl a ≠ [] → keyUrl b ≠ [] → keyUrl a ≠ keyUrl b) ∧
  (keyName a ≠ [] → keyDomain a ≠ [] → keyName b ≠ [] → keyDomain b ≠ [] →
    nameKey a ≠ nameKey b)

/-- Key-distinctness only depends on the left record's keys. -/
theorem recKeyDistinct_congr_left {a a' b : AgencyRec}
    (hu : keyUrl a' = keyUrl a) (hn : keyName a' = keyName a)
    (hd : keyDomain a' = keyDomain a) (h : RecKeyDistinct a b) :
    RecKeyDistinct a' b := by
  unfold RecKeyDistinct nameKey at *
  rw [hu, hn, hd]
  exact h

/-- Key-distinctness only depends on the right record's keys. -/
theorem recKeyDistinct_congr_right {a b b' : AgencyRec}
    (hu : keyUrl b' = keyUrl b) (hn : keyName b' = keyName b)
    (hd : keyDomain b' = keyDomain b) (h : RecKeyDistinct a b) :
    RecKeyDistinct a b' := by
  unfold RecKeyDistinct nameKey at *
  rw [hu, hn, hd]
  exact h

/-- Replacing the element at an index preserves pairwise relations when the
replacement relates exactly as the replaced element did. -/
theorem pairwise_set {R : AgencyRec → AgencyRec → Prop} (d : AgencyRec) :
    ∀ (l : List AgencyRec) (i : Nat) (v : AgencyRec),
      l.Pairwise R →
      (∀ x, R (l.getD i d) x → R v x) →
      (∀ x, R x (l.getD i d) → R x v) →
      (l.set i v).Pairwise R
  | [], i, v, h, _, _ => by simp
  | a :: as, 0, v, h, h1, h2 => by
    rw [List.pairwise_cons] at h
    rw [List.set_cons_zero, List.pairwise_cons]
    exact ⟨fun b hb => h1 b (h.1 b hb), h.2⟩
  | a :: as, n + 1, v, h, h1, h2 => by
    rw [List.pairwise_cons] at h
    rw [List.set_cons_succ, List.pairwise_cons]
    by_cases hlen : n < as.length
    · constructor
      · intro b hb
        rcases List.mem_or_eq_of_mem_set hb with hb' | hb'
        · exact h.1 b hb'
        · subst hb'
          refine h2 a (h.1 _ ?_)
          show as.getD n d ∈ as
          rw [List.getD_eq_getElem _ _ hlen]
          exact List.getElem_mem hlen
      · exact pairwise_set d as n v h.2 h1 h2
    · rw [List.set_eq_of_length_le (Nat.le_of_not_lt hlen)]
      exact h

/-- The loop invariant of `RemoveDuplicatesTool.run`: retained records are
pairwise key-distinct, and every retained record's keys are bound in the
seen-dicts. -/
structure DedupInv (st : DedupState) : Prop where
  nodup : st.unique_records.Pairwise RecKeyDistinct
  urls : ∀ r ∈ st.unique_records, keyUrl r ≠ [] →
    (dictGet st.seen_urls (keyUrl r)).isSome = true
  names : ∀ r ∈ st.unique_records, keyName r ≠ [] → keyDomain r ≠ [] →
    (dictGet st.seen_names (nameKey r)).isSome = true

/-- Merging only touches `parent_department`, so the composite name key is
kept. -/
theorem mergeParent_nameKey (ex rec : AgencyRec) :
    nameKey (mergeParent ex rec) = nameKey ex := by
  unfold nameKey
  rw [mergeParent_keyName, mergeParent_keyDomain]

/-- Each loop iteration preserves the dedup invariant. -/
theorem dedupInv_step {st : DedupState} (h : DedupInv st) (rec : AgencyRec) :
    DedupInv (dedupStep st rec) := by
  by_cases hu : keyUrl rec ≠ [] ∧ (dictGet st.seen_urls (keyUrl rec)).isSome = true
  · rw [dedupStep_url_hit hu]
    refine ⟨?_, ?_, ?_⟩
    · exact pairwise_set ⟨[], [], none⟩ st.unique_records _ _ h.nodup
        (fun x hx => recKeyDistinct_congr_left (mergeParent_keyUrl _ _)
          (mergeParent_keyName _ _) (mergeParent_keyDomain _ _) hx)
        (fun x hx => recKeyDistinct_congr_right (mergeParent_keyUrl _ _)
          (mergeParent_keyName _ _) (mergeParent_keyDomain _ _) hx)
    · intro r hr hne
      rcases List.mem_or_eq_of_mem_set hr with hr' | hr'
      · exact h.urls r hr' hne
      · subst hr'
        rw [mergeParent_keyUrl] at hne ⊢
        by_cases hlen : (dictGet st.seen_urls (keyUrl rec)).getD 0 <
            st.unique_records.length
        · refine h.urls _ ?_ hne
          rw [List.getD_eq_getElem _ _ hlen]
          exact List.getElem_mem hlen
        · rw [List.getD_eq_default _ _ (Nat.le_of_not_lt hlen)] at hne
          exact absurd rfl hne
    · intro r hr hn1 hn2
      rcases List.mem_or_eq_of_mem_set hr with hr' | hr'
      · exact h.names r hr' hn1 hn2
      · subst hr'
        rw [mergeParent_keyName] at hn1
        rw [mergeParent_keyDomain] at hn2
        rw [mergeParent_nameKey]
        by_cases hlen : (dictGet st.seen_urls (keyUrl rec)).getD 0 <
            st.unique_records.length
        · refine h.names _ ?_ hn1 hn2
          rw [List.getD_eq_getElem _ _ hlen]
          exact List.getElem_mem hlen
        · rw [List.getD_eq_default _ _ (Nat.le_of_not_lt hlen)] at hn1
          exact absurd rfl hn1
  · by_cases hn : keyName rec ≠ [] ∧ keyDomain rec ≠ [] ∧
        (dictGet st.seen_names (nameKey rec)).isSome = true
    · rw [dedupStep_name_hit hu hn]
      exact ⟨h.nodup, h.urls, h.names⟩
    · rw [dedupStep_miss hu hn]
      have hu' : keyUrl rec ≠ [] →
          (dictGet st.seen_urls (keyUrl rec)).isSome = false := by
        intro hx
        by_contra hc
        refine hu ⟨hx, ?_⟩
        revert hc
        cases (dictGet st.seen_urls (keyUrl rec)).isSome <;> simp
      have hn' : keyName rec ≠ [] → keyDomain rec ≠ [] →
          (dictGet st.seen_names (nameKey rec)).isSome = false := by
        intro hx hy
        by_contra hc
        refine hn ⟨hx, hy, ?_⟩
        revert hc
        cases (dictGet st.seen_names (nameKey rec)).isSome <;> simp
      refine ⟨?_, ?_, ?_⟩
      · dsimp only
        rw [List.pairwise_append]
        refine ⟨h.nodup, List.pairwise_singleton _ _, ?_⟩
        intro a ha b hb
        rw [List.mem_singleton.mp hb]
        constructor
        · intro hka hkr heq
          have hmem := h.urls a ha hka
          rw [heq, hu' hkr] at hmem
          simp at hmem
        · intro ha1 ha2 hb1 hb2 heq
          have hmem := h.names a ha ha1 ha2
          rw [heq, hn' hb1 hb2] at hmem
          simp at hmem
      · intro r hr hne
        dsimp only at hr ⊢
        rcases List.mem_append.mp hr with hr' | hr'
        · by_cases hrec : keyUrl rec ≠ []
          · rw [if_pos hrec]
            exact dictGet_append_isSome _ (h.urls r hr' hne)
          · rw [if_neg hrec]
            exact h.urls r hr' hne
        · rw [List.mem_singleton.mp hr'] at hne ⊢
          rw [if_pos hne]
          exact dictGet_append_singleton_self _ _ _
      · intro r hr hn1 hn2
        dsimp only at hr ⊢
        rcases List.mem_append.mp hr with hr' | hr'
        · by_cases hrec : keyName rec ≠ [] ∧ keyDomain rec ≠ []
          · rw [if_pos hrec]
            exact dictGet_append_isSome _ (h.names r hr' hn1 hn2)
          · rw [if_neg hrec]
            exact h.names r hr' hn1 hn2
        · rw [List.mem_singleton.mp hr'] at hn1 hn2 ⊢
          rw [if_pos ⟨hn1, hn2⟩]
          exact dictGet_append_singleton_self _ _ _

/-- The whole loop preserves the dedup invariant. -/
theorem dedupInv_fold (l : List AgencyRec) :
    ∀ (st : DedupState), DedupInv st → DedupInv (l.foldl dedupStep st) := by
  induction l with
  | nil => exact fun st h => h
  | cons rec rest ih => exact fun st h => ih _ (dedupInv_step h rec)

/-- The Deduplicator's output satisfies the invariant from the empty
state. -/
theorem dedupInv_run (data : List AgencyRec) : DedupInv (removeDuplicates data) :=
  dedupInv_fold data ⟨[], [], [], 0⟩ ⟨List.Pairwise.nil, by simp, by simp⟩

/-- Running the loop over records that hit nothing in the state and are
pairwise key-distinct appends all of them and removes none. -/
theorem dedup_fold_no_hits (l : List AgencyRec) :
    ∀ (st : DedupState),
      (∀ r ∈ l, keyUrl r ≠ [] → (dictGet st.seen_urls (keyUrl r)).isSome = false) →
      (∀ r ∈ l, keyName r ≠ [] → keyDomain r ≠ [] →
        (dictGet st.seen_names (nameKey r)).isSome = false) →
      l.Pairwise RecKeyDistinct →
      (l.foldl dedupStep st).unique_records = st.unique_records ++ l ∧
      (l.foldl dedupStep st).duplicates_removed = st.duplicates_removed := by
  induction l with
  | nil => exact fun st _ _ _ => ⟨by simp, rfl⟩
  | cons rec rest ih =>
    intro st hU hN hP
    rw [List.pairwise_cons] at hP
    have hu : ¬(keyUrl rec ≠ [] ∧
        (dictGet st.seen_urls (keyUrl rec)).isSome = true) := by
      rintro ⟨hx, hy⟩
      rw [hU rec (List.mem_cons_self _ _) hx] at hy
      cases hy
    have hn : ¬(keyName rec ≠ [] ∧ keyDomain rec ≠ [] ∧
        (dictGet st.seen_names (nameKey rec)).isSome = true) := by
      rintro ⟨hx, hy, hz⟩
      rw [hN rec (List.mem_cons_self _ _) hx hy] at hz
      cases hz
    rw [List.foldl_cons, dedupStep_miss hu hn]
    have hU' : ∀ r ∈ rest, keyUrl r ≠ [] →
        (dictGet (if keyUrl rec ≠ []
          then st.seen_urls ++ [(keyUrl rec, st.unique_records.length)]
          else st.seen_urls) (keyUrl r)).isSome = false := by
      intro r hr hx
      by_cases hrec : keyUrl rec ≠ []
      · rw [if_pos hrec,
          dictGet_append_singleton_ne _ _ (Ne.symm ((hP.1 r hr).1 hrec hx))]
        exact hU r (List.mem_cons_of_mem _ hr) hx
      · rw [if_neg hrec]
        exact hU r (List.mem_cons_of_mem _ hr) hx
    have hN' : ∀ r ∈ rest, keyName r ≠ [] → keyDomain r ≠ [] →
        (dictGet (if keyName rec ≠ [] ∧ keyDomain rec ≠ []
          then st.seen_names ++ [(nameKey rec, st.unique_records.length)]
          else st.seen_names) (nameKey r)).isSome = false := by
      intro r hr hx hy
      by_cases hrec : keyName rec ≠ [] ∧ keyDomain rec ≠ []
      · rw [if_pos hrec,
          dictGet_append_singleton_ne _ _
            (Ne.symm ((hP.1 r hr).2 hrec.1 hrec.2 hx hy))]
        exact hN r (List.mem_cons_of_mem _ hr) hx hy
      · rw [if_neg hrec]
        exact hN r (List.mem_cons_of_mem _ hr) hx hy
    obtain ⟨ih1, ih2⟩ := ih
      ⟨if keyUrl rec ≠ []
        then st.seen_urls ++ [(keyUrl rec, st.unique_records.length)]
        else st.seen_urls,
       if keyName rec ≠ [] ∧ keyDomain rec ≠ []
        then st.seen_names ++ [(nameKey rec, st.unique_records.length)]
        else st.seen_names,
       st.unique_records ++ [rec], st.duplicates_removed⟩ hU' hN' hP.2
    refine ⟨?_, ih2⟩
    rw [ih1]
    dsimp only
    rw [List.append_assoc, List.singleton_append]

/-- C4: deduplication converges in one pass — running the Deduplicator on
its own `unique_records` output returns that list unchanged with
`duplicates_removed = 0`. -/
theorem dedup_converges (data : List AgencyRec) :
    (removeDuplicates ((removeDuplicates data).unique_records)).unique_records =
      (removeDuplicates data).unique_records ∧
    (removeDuplicates ((removeDuplicates data).unique_records)).duplicates_removed
      = 0 := by
  have hinv := dedupInv_run data
  have h := dedup_fold_no_hits (removeDuplicates data).unique_records
    ⟨[], [], [], 0⟩ (by intro r hr hx; rfl) (by intro r hr hx hy; rfl) hinv.nodup
  refine ⟨?_, h.2⟩
  rw [show removeDuplicates ((removeDuplicates data).unique_records) =
    ((removeDuplicates data).unique_records).foldl dedupStep ⟨[], [], [], 0⟩ from rfl]
  rw [h.1]
  rfl

/-- C5 witness: the merge theorem evaluated on the spec's concrete
scenario (`"Parent Dept"`). -/
theorem dedup_merges_parent_witness :
    (keyUrl ⟨pstr "Agriculture Department", pstr "https://usda.gov", none⟩ =
       keyUrl ⟨pstr "USDA", pstr "https://usda.gov", some (pstr "Parent Dept")⟩) ∧
    keyUrl (⟨pstr "Agriculture Department", pstr "https://usda.gov", none⟩ : AgencyRec) ≠ [] ∧
    (⟨pstr "Agriculture Department", pstr "https://usda.gov", none⟩ : AgencyRec).parent_department = none ∧
    optTruthy (⟨pstr "USDA", pstr "https://usda.gov", some (pstr "Parent Dept")⟩ : AgencyRec).parent_department = true ∧
    ((removeDuplicates
        [⟨pstr "Agriculture Department", pstr "https://usda.gov", none⟩,
         ⟨pstr "USDA", pstr "https://usda.gov", some (pstr "Parent Dept")⟩]).unique_records =
      [{ (⟨pstr "Agriculture Department", pstr "https://usda.gov", none⟩ : AgencyRec) with
          parent_department := (⟨pstr "USDA", pstr "https://usda.gov",
            some (pstr "Parent Dept")⟩ : AgencyRec).parent_department }] ∧
     (removeDuplicates
        [⟨pstr "Agriculture Department", pstr "https://usda.gov", none⟩,
         ⟨pstr "USDA", pstr "https://usda.gov", some (pstr "Parent Dept")⟩]).duplicates_removed = 1) :=
  ⟨by decide, by decide, by decide, by decide,
   dedup_merges_parent
     ⟨pstr "Agriculture Department", pstr "https://usda.gov", none⟩
     ⟨pstr "USDA", pstr "https://usda.gov", some (pstr "Parent Dept")⟩
     (by decide) (by decide) (by decide) (by decide)⟩

